import Mathlib

/-!
Verification of `GPUSinkhornBasedLogDomainOptimalTransportHoudini.py`
(`_logsumexp`, `_sinkhorn_log_domain`, and the transport application step of
`_zspc_sbld_optimal_transport`).

The numerical code is embedded shallowly: arrays become functions out of `Fin`,
and the scalar type is an arbitrary `LinearOrderedField` with the exponential
and logarithm passed in as function parameters, so that every definition stays
computable; the theorems instantiate the scalar type at `ℝ` with `Real.exp`
and `Real.log`, which is the exact-arithmetic semantics of the float program.

Behaviour that raises in the backend is modelled with `Except RunError`:
`cupy.max` (and hence `_logsumexp`) raises on a reduction over an axis of
length zero, and the `info` dictionary construction reads the loop variable
`iteration`, which is unbound when `range(max_iterations)` is empty.
-/

namespace SinkhornOT


/-- The two converge-type strings that the loop can assign before `break`:
`"Error < tolerance"` and `"Stagnation"`. -/
inductive StopKind
  | errorBelowTolerance
  | stagnation
  deriving DecidableEq

/-- The three values the returned `converge_type` field can take.  The code
represents them as the strings `"Error < tolerance"`, `"Stagnation"` and `""`
(the initial value, kept when `max_iterations` is exhausted without a break);
`ConvergeType.codeString` gives that representation. -/
inductive ConvergeType
  | errorBelowTolerance
  | stagnation
  | maxIterationsReached
  deriving DecidableEq

/-- The literal string the Python code stores for each converge type:
the initial value `""` is what a run that exhausts `max_iterations` returns. -/
def ConvergeType.codeString : ConvergeType → String
  | .errorBelowTolerance => "Error < tolerance"
  | .stagnation => "Stagnation"
  | .maxIterationsReached => ""

/-- Runtime failures of the modelled code: `emptyAxisReduction` is the
`ValueError` cupy raises when `max` reduces an axis of length 0 (reached when
a point set is empty), `iterationUnbound` is the `NameError` raised when the
`info` dict reads the loop variable `iteration` after a loop that never ran
(`max_iterations = 0`). -/
inductive RunError
  | emptyAxisReduction
  | iterationUnbound
  deriving DecidableEq

variable {α : Type} [LinearOrderedField α]

/-- The literal `1e-256` added to the weights before taking logarithms
(lines 183-184 of the source). -/
def floorWeight : α := 1 / 10 ^ 256

/-- The literal `1e-300` added to each row sum in the final renormalization
(line 269 of the source). -/
def floorRow : α := 1 / 10 ^ 300

/-- The literal `1e-12` of the stagnation check (line 255 of the source). -/
def stagnationThreshold : α := 1 / 10 ^ 12

/-- Maximum of a non-empty vector (`cupy.max` over a length-`k+1` axis). -/
def vecMax : ∀ {k : ℕ}, (Fin (k + 1) → α) → α
  | 0, v => v 0
  | _ + 1, v => max (v 0) (vecMax fun i => v i.succ)

/-- The body of `_logsumexp` on one non-empty reduction slice: subtract the maximum,
exponentiate, sum, take the log, add the maximum back (lines 82-87). -/
def logsumexp (exp log : α → α) {k : ℕ} (v : Fin (k + 1) → α) : α :=
  vecMax v + log (∑ i, exp (v i - vecMax v))

/-- The primitive `_logsumexp` applied along an axis of a 2-d array: `M o r` is the entry at
output index `o` and reduction index `r`.  A reduction over an axis of length
zero raises in the backend whenever there is at least one output slot, which
is modelled by `.error .emptyAxisReduction`. -/
def logsumexpAxis (exp log : α → α) {out red : ℕ} (M : Fin out → Fin red → α) :
    Except RunError (Fin out → α) :=
  match out, red, M with
  | 0, _, _ => .ok fun i => i.elim0
  | _ + 1, 0, _ => .error .emptyAxisReduction
  | _ + 1, _ + 1, M => .ok fun i => logsumexp exp log (M i)

/-- The reduction `cupy.max` over a whole 1-d array, raising on an empty input. -/
def vecMaxE {k : ℕ} (v : Fin k → α) : Except RunError α :=
  match k, v with
  | 0, _ => .error .emptyAxisReduction
  | _ + 1, v => .ok (vecMax v)

/-- Weight preparation of lines 129-140: `None` becomes the uniform vector
`ones(k)/k`, and either way the (copied) vector is divided by its own sum. -/
def normalizeWeights (k : ℕ) (wOpt : Option (Fin k → α)) : Fin k → α :=
  let w : Fin k → α :=
    match wOpt with
    | none => fun _ => 1 / (k : α)
    | some w0 => w0
  fun i => w i / ∑ j, w j

/-- The broadcast cost-matrix formula of lines 147-167:
row sums of squares plus column sums of squares minus twice `src · tgtᵀ`. -/
def costMatrix {n m d : ℕ} (src : Fin n → Fin d → α) (tgt : Fin m → Fin d → α) :
    Fin n → Fin m → α :=
  fun i j => (∑ a, src i a ^ 2) + (∑ a, tgt j a ^ 2) - 2 * ∑ a, src i a * tgt j a

/-- The kernel `log_kernel = -cost_matrix / epsilon` (line 173). -/
def logKernel {n m : ℕ} (eps : α) (cost : Fin n → Fin m → α) : Fin n → Fin m → α :=
  fun i j => -cost i j / eps

/-- The check-scheduling condition of line 234:
`(iteration & 31) == 0 or iteration == max_iterations - 1`. -/
def checkCond (maxIterations iteration : ℕ) : Bool :=
  (iteration &&& 31 == 0) || (iteration == maxIterations - 1)

/-- The stagnation test `abs(previous_error - marginal_error) < 1e-12` of
line 255; `none` models the initial `previous_error = inf`, for which the
absolute difference with any finite error is infinite, hence never below
the threshold. -/
def stagnationHit (prevErr : Option α) (err : α) : Bool :=
  match prevErr with
  | none => false
  | some p => decide (|p - err| < stagnationThreshold)

/-- Lines 247-260: once `iteration >= min_iterations`, stop with
`"Error < tolerance"` when `err < tolerance`, else stop with `"Stagnation"`
when the error stagnated; in every non-stopping case (including
`iteration < min_iterations`) save the current error as `previous_error`.
Returns `(stop kind if any, new previous_error)`. -/
def convergenceDecision (minIterations : ℕ) (tolerance : α) (iteration : ℕ)
    (prevErr : Option α) (err : α) : Option StopKind × Option α :=
  if minIterations ≤ iteration then
    if err < tolerance then (some .errorBelowTolerance, prevErr)
    else if stagnationHit prevErr err then (some .stagnation, prevErr)
    else (none, some err)
  else (none, some err)

/-- The mutable loop state of `_sinkhorn_log_domain`: the scaling vectors,
`previous_error` (`none` = the initial `inf`), the converge-type-on-break
(`none` = no break yet), and the current value of the loop variable
`iteration` (the last executed index). -/
structure SinkhornState (n m : ℕ) (α : Type) where
  logU : Fin n → α
  logV : Fin m → α
  prevErr : Option α
  stop : Option StopKind
  lastIter : ℕ

/-- One pass of the `for iteration in range(max_iterations)` body
(lines 199-260).  A state that already carries a stop is returned unchanged,
which models `break` having exited the loop. -/
def sinkhornStep (exp log : α → α) {n m : ℕ} (K : Fin n → Fin m → α)
    (logSrcW : Fin n → α) (logTgtW : Fin m → α) (tgtW : Fin m → α)
    (tolerance : α) (minIterations maxIterations : ℕ)
    (iteration : ℕ) (s : SinkhornState n m α) : Except RunError (SinkhornState n m α) :=
  if s.stop.isSome then .ok s else
  match logsumexpAxis exp log (fun i j => K i j + s.logV j) with
  | .error e => .error e
  | .ok logKv =>
    let logU : Fin n → α := fun i => logSrcW i - logKv i
    match logsumexpAxis exp log (fun j i => K i j + logU i) with
    | .error e => .error e
    | .ok logKtu =>
      let logV : Fin m → α := fun j => logTgtW j - logKtu j
      if checkCond maxIterations iteration then
        match logsumexpAxis exp log (fun j i => logU i + K i j + logV j) with
        | .error e => .error e
        | .ok logColSums =>
          match vecMaxE (fun j => |exp (logColSums j) - tgtW j|) with
          | .error e => .error e
          | .ok err =>
            let d := convergenceDecision minIterations tolerance iteration s.prevErr err
            .ok ⟨logU, logV, d.2, d.1, iteration⟩
      else .ok ⟨logU, logV, s.prevErr, s.stop, iteration⟩

/-- Run `fuel` further passes of the loop body starting at index `iteration`. -/
def sinkhornLoop (exp log : α → α) {n m : ℕ} (K : Fin n → Fin m → α)
    (logSrcW : Fin n → α) (logTgtW : Fin m → α) (tgtW : Fin m → α)
    (tolerance : α) (minIterations maxIterations : ℕ) :
    ℕ → ℕ → SinkhornState n m α → Except RunError (SinkhornState n m α)
  | 0, _, s => .ok s
  | fuel + 1, iteration, s =>
    match sinkhornStep exp log K logSrcW logTgtW tgtW tolerance minIterations maxIterations
        iteration s with
    | .error e => .error e
    | .ok s2 =>
      sinkhornLoop exp log K logSrcW logTgtW tgtW tolerance minIterations maxIterations
        fuel (iteration + 1) s2

/-- The state before the loop: `log_u = 0`, `log_v = 0`,
`previous_error = inf`, `converge_type = ""` (lines 176-189). -/
def initState (n m : ℕ) : SinkhornState n m α :=
  ⟨fun _ => 0, fun _ => 0, none, none, 0⟩

/-- The whole Sinkhorn loop: `max_iterations` passes starting at index 0. -/
def sinkhornLoopFinal (exp log : α → α) {n m : ℕ} (K : Fin n → Fin m → α)
    (logSrcW : Fin n → α) (logTgtW : Fin m → α) (tgtW : Fin m → α)
    (tolerance : α) (minIterations maxIterations : ℕ) :
    Except RunError (SinkhornState n m α) :=
  sinkhornLoop exp log K logSrcW logTgtW tgtW tolerance minIterations maxIterations
    maxIterations 0 (initState n m)

/-- The `info` dictionary of line 271. -/
structure ConvergenceInfo (α : Type) where
  iterations : ℕ
  epsilon : α
  convergeType : ConvergeType

/-- The converge type held by a final loop state: a state that never broke
still carries the initial `""`, i.e. `maxIterationsReached`. -/
def stopToConverge : Option StopKind → ConvergeType
  | none => .maxIterationsReached
  | some .errorBelowTolerance => .errorBelowTolerance
  | some .stagnation => .stagnation

/-- The Sinkhorn loop of `_sinkhorn_log_domain` with its inputs prepared
exactly as lines 129-189 prepare them: normalized weights, cost matrix,
log-kernel, and the `1e-256`-floored log-weights. -/
def loopFinalOf (exp log : α → α) {n m d : ℕ}
    (srcPts : Fin n → Fin d → α) (tgtPts : Fin m → Fin d → α)
    (srcWgts : Option (Fin n → α)) (tgtWgts : Option (Fin m → α))
    (epsilon : α) (minIterations maxIterations : ℕ) (tolerance : α) :
    Except RunError (SinkhornState n m α) :=
  let srcW := normalizeWeights n srcWgts
  let tgtW := normalizeWeights m tgtWgts
  let K := logKernel epsilon (costMatrix srcPts tgtPts)
  let logSrcW : Fin n → α := fun i => log (srcW i + floorWeight)
  let logTgtW : Fin m → α := fun j => log (tgtW j + floorWeight)
  sinkhornLoopFinal exp log K logSrcW logTgtW tgtW tolerance minIterations maxIterations

/-- The solver `_sinkhorn_log_domain` (lines 91-277), with arrays of statically known
shape.  Note the function performs no validation whatsoever: there is no
check on `epsilon`, `min_iterations`, `max_iterations`, `n` or `m`; empty
point sets surface only as an `emptyAxisReduction` backend error raised from
inside the first loop pass (after the cost matrix has been formed), and
`max_iterations = 0` surfaces as the `NameError` on the unbound loop variable
`iteration` at the `info` construction (`iterationUnbound`). -/
def sinkhorn_log_domain (exp log : α → α) {n m d : ℕ}
    (srcPts : Fin n → Fin d → α) (tgtPts : Fin m → Fin d → α)
    (srcWgts : Option (Fin n → α)) (tgtWgts : Option (Fin m → α))
    (epsilon : α) (minIterations maxIterations : ℕ) (tolerance : α) :
    Except RunError ((Fin n → Fin m → α) × ConvergenceInfo α) :=
  match loopFinalOf exp log srcPts tgtPts srcWgts tgtWgts epsilon minIterations
      maxIterations tolerance with
  | .error e => .error e
  | .ok s =>
    match maxIterations with
    | 0 => .error .iterationUnbound
    | _ + 1 =>
      let K := logKernel epsilon (costMatrix srcPts tgtPts)
      let T : Fin n → Fin m → α := fun i j => exp (s.logU i + K i j + s.logV j)
      let P : Fin n → Fin m → α := fun i j => T i j / ((∑ j2, T i j2) + floorRow)
      .ok (P, ⟨s.lastIter + 1, epsilon, stopToConverge s.stop⟩)

/-- The application `transported_src_pts = matmul(transport_matrix, tgt_pts)` (line 323). -/
def applyTransportMatrix {n m d : ℕ} (P : Fin n → Fin m → α)
    (tgtPts : Fin m → Fin d → α) : Fin n → Fin d → α :=
  fun i a => ∑ j, P i j * tgtPts j a

/-- Whether an `Except` value is a normal result. -/
def exOk {ε : Type} {β : Type} (r : Except ε β) : Bool :=
  match r with
  | .ok _ => true
  | .error _ => false

/-- The transport plan of a normal result (junk all-zero matrix on error). -/
def planOf {n m : ℕ} (r : Except RunError ((Fin n → Fin m → α) × ConvergenceInfo α)) :
    Fin n → Fin m → α :=
  match r with
  | .ok x => x.1
  | .error _ => fun _ _ => 0

/-- The `iterations` field of a normal result (junk 0 on error). -/
def iterationsOf {n m : ℕ}
    (r : Except RunError ((Fin n → Fin m → α) × ConvergenceInfo α)) : ℕ :=
  match r with
  | .ok x => x.2.iterations
  | .error _ => 0

/-- The `converge_type` field of a normal result. -/
def convergeTypeOf {n m : ℕ}
    (r : Except RunError ((Fin n → Fin m → α) × ConvergenceInfo α)) : ConvergeType :=
  match r with
  | .ok x => x.2.convergeType
  | .error _ => .maxIterationsReached

/-- The stop field of a final loop state result. -/
def stopOf {n m : ℕ} (r : Except RunError (SinkhornState n m α)) : Option StopKind :=
  match r with
  | .ok s => s.stop
  | .error _ => none

/-- The pre-renormalization mass of row `i` of the transport matrix, i.e. the
quantity `transport_matrix.sum(axis=1)[i]` that line 269 divides by (before
the `1e-300` floor is added).  Recomputes the same pipeline as
`sinkhorn_log_domain`. -/
def rowMassOf (exp log : α → α) {n m d : ℕ}
    (srcPts : Fin n → Fin d → α) (tgtPts : Fin m → Fin d → α)
    (srcWgts : Option (Fin n → α)) (tgtWgts : Option (Fin m → α))
    (epsilon : α) (minIterations maxIterations : ℕ) (tolerance : α) (i : Fin n) : α :=
  match loopFinalOf exp log srcPts tgtPts srcWgts tgtWgts epsilon minIterations
      maxIterations tolerance with
  | .error _ => 0
  | .ok s => ∑ j, exp (s.logU i + logKernel epsilon (costMatrix srcPts tgtPts) i j + s.logV j)

/-- Closed form of `log_u` after the first loop pass (started from
`log_v = 0`), proved below to match the loop. -/
def oneIterLogU (exp log : α → α) {n m : ℕ} (K : Fin (n + 1) → Fin (m + 1) → α)
    (logSrcW : Fin (n + 1) → α) : Fin (n + 1) → α :=
  fun i => logSrcW i - logsumexp exp log (fun j => K i j)

/-- Closed form of `log_v` after the first loop pass, proved below to match
the loop. -/
def oneIterLogV (exp log : α → α) {n m : ℕ} (K : Fin (n + 1) → Fin (m + 1) → α)
    (logSrcW : Fin (n + 1) → α) (logTgtW : Fin (m + 1) → α) : Fin (m + 1) → α :=
  fun j => logTgtW j - logsumexp exp log (fun i => K i j + oneIterLogU exp log K logSrcW i)

/-- The marginal error computed by the check of iteration 0 (with the scaling
vectors of the first pass). -/
def oneIterErr (exp log : α → α) {n m : ℕ} (K : Fin (n + 1) → Fin (m + 1) → α)
    (logSrcW : Fin (n + 1) → α) (logTgtW : Fin (m + 1) → α) (tgtW : Fin (m + 1) → α) : α :=
  vecMax fun j =>
    |exp (logsumexp exp log fun i =>
        oneIterLogU exp log K logSrcW i + K i j
          + oneIterLogV exp log K logSrcW logTgtW j) - tgtW j|

/-- The loop state after a single pass (`max_iterations = 1`), proved below to
be what `sinkhornLoopFinal` produces. -/
def oneIterState (exp log : α → α) {n m : ℕ} (K : Fin (n + 1) → Fin (m + 1) → α)
    (logSrcW : Fin (n + 1) → α) (logTgtW : Fin (m + 1) → α) (tgtW : Fin (m + 1) → α)
    (tolerance : α) (minIterations : ℕ) : SinkhornState (n + 1) (m + 1) α :=
  let d := convergenceDecision minIterations tolerance 0 none
    (oneIterErr exp log K logSrcW logTgtW tgtW)
  ⟨oneIterLogU exp log K logSrcW, oneIterLogV exp log K logSrcW logTgtW, d.2, d.1, 0⟩

/-! ### Basic lemmas about the reduction primitives -/

theorem logsumexpAxis_ok (exp log : α → α) {out r : ℕ} (M : Fin out → Fin (r + 1) → α) :
    logsumexpAxis exp log M = .ok fun i => logsumexp exp log (M i) := by
  cases out with
  | zero =>
    show Except.ok _ = _
    congr 1
    funext i
    exact i.elim0
  | succ o => rfl

theorem vecMaxE_ok {k : ℕ} (v : Fin (k + 1) → α) : vecMaxE v = .ok (vecMax v) := rfl

theorem vecMax_one (v : Fin 1 → α) : vecMax v = v 0 := rfl

theorem vecMax_succ {k : ℕ} (v : Fin (k + 2) → α) :
    vecMax v = max (v 0) (vecMax fun i => v i.succ) := rfl

/-- In exact arithmetic the max-shifted form computed by `_logsumexp`
equals `log (sum (exp v))` outright. -/
theorem logsumexp_eq_log_sum_exp {k : ℕ} (v : Fin (k + 1) → ℝ) :
    logsumexp Real.exp Real.log v = Real.log (∑ i, Real.exp (v i)) := by
  have hpos : 0 < ∑ i, Real.exp (v i - vecMax v) :=
    Finset.sum_pos (fun i _ => Real.exp_pos _) Finset.univ_nonempty
  have hmul : Real.exp (vecMax v) * ∑ i, Real.exp (v i - vecMax v)
      = ∑ i, Real.exp (v i) := by
    rw [Finset.mul_sum]
    refine Finset.sum_congr rfl fun i _ => ?_
    rw [← Real.exp_add]
    congr 1
    ring
  calc vecMax v + Real.log (∑ i, Real.exp (v i - vecMax v))
      = Real.log (Real.exp (vecMax v) * ∑ i, Real.exp (v i - vecMax v)) := by
        rw [Real.log_mul (Real.exp_ne_zero _) (ne_of_gt hpos), Real.log_exp]
    _ = Real.log (∑ i, Real.exp (v i)) := by rw [hmul]

theorem exp_logsumexp {k : ℕ} (v : Fin (k + 1) → ℝ) :
    Real.exp (logsumexp Real.exp Real.log v) = ∑ i, Real.exp (v i) := by
  rw [logsumexp_eq_log_sum_exp,
    Real.exp_log (Finset.sum_pos (fun i _ => Real.exp_pos _) Finset.univ_nonempty)]

theorem sum_exp_pos {k : ℕ} (v : Fin (k + 1) → ℝ) : 0 < ∑ i, Real.exp (v i) :=
  Finset.sum_pos (fun i _ => Real.exp_pos _) Finset.univ_nonempty

/-- A log-sum-exp over a single element is that element. -/
theorem logsumexp_singleton (v : Fin 1 → ℝ) :
    logsumexp Real.exp Real.log v = v 0 := by
  rw [logsumexp_eq_log_sum_exp, Fin.sum_univ_one, Real.log_exp]

/-! ### The loop never fails on non-empty point sets -/

theorem exOk_iff {ε : Type} {β : Type} (r : Except ε β) :
    exOk r = true ↔ ∃ x, r = .ok x := by
  cases r <;> simp [exOk]

theorem exOk_ok {ε : Type} {β : Type} (x : β) : exOk (Except.ok (ε := ε) x) = true := rfl

theorem planOf_ok {n m : ℕ} (x : (Fin n → Fin m → α) × ConvergenceInfo α) :
    planOf (.ok x) = x.1 := rfl

theorem iterationsOf_ok {n m : ℕ} (x : (Fin n → Fin m → α) × ConvergenceInfo α) :
    iterationsOf (.ok x) = x.2.iterations := rfl

theorem convergeTypeOf_ok {n m : ℕ} (x : (Fin n → Fin m → α) × ConvergenceInfo α) :
    convergeTypeOf (.ok x) = x.2.convergeType := rfl

theorem stopOf_ok {n m : ℕ} (s : SinkhornState n m α) :
    stopOf (.ok s) = s.stop := rfl

theorem sinkhornStep_ok (exp log : α → α) {n m : ℕ} (K : Fin (n + 1) → Fin (m + 1) → α)
    (logSrcW : Fin (n + 1) → α) (logTgtW : Fin (m + 1) → α) (tgtW : Fin (m + 1) → α)
    (tolerance : α) (minIterations maxIterations iteration : ℕ)
    (s : SinkhornState (n + 1) (m + 1) α) :
    ∃ s2, sinkhornStep exp log K logSrcW logTgtW tgtW tolerance minIterations
      maxIterations iteration s = .ok s2 := by
  refine (exOk_iff _).mp ?_
  unfold sinkhornStep
  by_cases hs : s.stop.isSome = true
  · rw [if_pos hs]
    rfl
  · by_cases hc : checkCond maxIterations iteration = true
    · simp only [if_neg hs, logsumexpAxis_ok, vecMaxE_ok, if_pos hc]
      rfl
    · simp only [if_neg hs, logsumexpAxis_ok, vecMaxE_ok, if_neg hc]
      rfl

theorem sinkhornLoop_ok (exp log : α → α) {n m : ℕ} (K : Fin (n + 1) → Fin (m + 1) → α)
    (logSrcW : Fin (n + 1) → α) (logTgtW : Fin (m + 1) → α) (tgtW : Fin (m + 1) → α)
    (tolerance : α) (minIterations maxIterations : ℕ) :
    ∀ (fuel iteration : ℕ) (s : SinkhornState (n + 1) (m + 1) α),
      ∃ s2, sinkhornLoop exp log K logSrcW logTgtW tgtW tolerance minIterations
        maxIterations fuel iteration s = .ok s2 := by
  intro fuel
  induction fuel with
  | zero => exact fun iteration s => ⟨s, rfl⟩
  | succ f ih =>
    intro iteration s
    obtain ⟨s1, h1⟩ := sinkhornStep_ok exp log K logSrcW logTgtW tgtW tolerance
      minIterations maxIterations iteration s
    obtain ⟨s2, h2⟩ := ih (iteration + 1) s1
    refine ⟨s2, ?_⟩
    rw [sinkhornLoop, h1]
    exact h2

theorem loopFinalOf_ok (exp log : α → α) {n m d : ℕ}
    (srcPts : Fin (n + 1) → Fin d → α) (tgtPts : Fin (m + 1) → Fin d → α)
    (srcWgts : Option (Fin (n + 1) → α)) (tgtWgts : Option (Fin (m + 1) → α))
    (epsilon : α) (minIterations maxIterations : ℕ) (tolerance : α) :
    ∃ s, loopFinalOf exp log srcPts tgtPts srcWgts tgtWgts epsilon minIterations
      maxIterations tolerance = .ok s := by
  unfold loopFinalOf sinkhornLoopFinal
  exact sinkhornLoop_ok _ _ _ _ _ _ _ _ _ _ _ _

/-- On non-empty point sets with `max_iterations = T + 1`, the solver returns
normally, and the returned plan is the exponentiated scaled kernel of the
final state with each row divided by its own sum plus the `1e-300` floor. -/
theorem sinkhorn_result (exp log : α → α) {n m d : ℕ}
    (srcPts : Fin (n + 1) → Fin d → α) (tgtPts : Fin (m + 1) → Fin d → α)
    (srcWgts : Option (Fin (n + 1) → α)) (tgtWgts : Option (Fin (m + 1) → α))
    (epsilon : α) (minIterations T : ℕ) (tolerance : α) :
    ∃ s : SinkhornState (n + 1) (m + 1) α,
      loopFinalOf exp log srcPts tgtPts srcWgts tgtWgts epsilon minIterations
        (T + 1) tolerance = .ok s ∧
      sinkhorn_log_domain exp log srcPts tgtPts srcWgts tgtWgts epsilon minIterations
        (T + 1) tolerance
        = .ok (fun i j =>
            exp (s.logU i + logKernel epsilon (costMatrix srcPts tgtPts) i j + s.logV j)
              / ((∑ j2, exp (s.logU i + logKernel epsilon (costMatrix srcPts tgtPts) i j2
                    + s.logV j2)) + floorRow),
            ⟨s.lastIter + 1, epsilon, stopToConverge s.stop⟩) := by
  obtain ⟨s, hs⟩ := loopFinalOf_ok exp log srcPts tgtPts srcWgts tgtWgts epsilon
    minIterations (T + 1) tolerance
  refine ⟨s, hs, ?_⟩
  unfold sinkhorn_log_domain
  rw [hs]

/-! ### One-pass runs (`max_iterations = 1`) in closed form -/

theorem sinkhornStep_init (exp log : α → α) {n m : ℕ} (K : Fin (n + 1) → Fin (m + 1) → α)
    (logSrcW : Fin (n + 1) → α) (logTgtW : Fin (m + 1) → α) (tgtW : Fin (m + 1) → α)
    (tolerance : α) (minIterations : ℕ) :
    sinkhornStep exp log K logSrcW logTgtW tgtW tolerance minIterations 1 0
      (initState (n + 1) (m + 1))
      = .ok (oneIterState exp log K logSrcW logTgtW tgtW tolerance minIterations) := by
  have hc : checkCond 1 0 = true := rfl
  unfold sinkhornStep initState oneIterState oneIterErr oneIterLogV oneIterLogU
  simp only [logsumexpAxis_ok, vecMaxE_ok, hc, if_true, Option.isSome_none,
    Bool.false_eq_true, if_false, add_zero]

theorem loopFinal_one_iter (exp log : α → α) {n m : ℕ} (K : Fin (n + 1) → Fin (m + 1) → α)
    (logSrcW : Fin (n + 1) → α) (logTgtW : Fin (m + 1) → α) (tgtW : Fin (m + 1) → α)
    (tolerance : α) (minIterations : ℕ) :
    sinkhornLoopFinal exp log K logSrcW logTgtW tgtW tolerance minIterations 1
      = .ok (oneIterState exp log K logSrcW logTgtW tgtW tolerance minIterations) := by
  show (match sinkhornStep exp log K logSrcW logTgtW tgtW tolerance minIterations 1 0
      (initState (n + 1) (m + 1)) with
    | Except.error e => (Except.error e : Except RunError (SinkhornState (n + 1) (m + 1) α))
    | Except.ok s2 => sinkhornLoop exp log K logSrcW logTgtW tgtW tolerance minIterations 1 0
        (0 + 1) s2) = _
  rw [sinkhornStep_init]
  rfl

theorem loopFinalOf_one_iter (exp log : α → α) {n m d : ℕ}
    (srcPts : Fin (n + 1) → Fin d → α) (tgtPts : Fin (m + 1) → Fin d → α)
    (srcWgts : Option (Fin (n + 1) → α)) (tgtWgts : Option (Fin (m + 1) → α))
    (epsilon : α) (minIterations : ℕ) (tolerance : α) :
    loopFinalOf exp log srcPts tgtPts srcWgts tgtWgts epsilon minIterations 1 tolerance
      = .ok (oneIterState exp log (logKernel epsilon (costMatrix srcPts tgtPts))
          (fun i => log (normalizeWeights (n + 1) srcWgts i + floorWeight))
          (fun j => log (normalizeWeights (m + 1) tgtWgts j + floorWeight))
          (normalizeWeights (m + 1) tgtWgts) tolerance minIterations) := by
  unfold loopFinalOf
  exact loopFinal_one_iter exp log _ _ _ _ tolerance minIterations

/-- A one-pass run returns normally; its plan is the renormalized
exponentiated scaled kernel built from the closed-form first-pass scaling
vectors, and its reported iteration count is 1. -/
theorem sinkhorn_one_iter (exp log : α → α) {n m d : ℕ}
    (srcPts : Fin (n + 1) → Fin d → α) (tgtPts : Fin (m + 1) → Fin d → α)
    (srcWgts : Option (Fin (n + 1) → α)) (tgtWgts : Option (Fin (m + 1) → α))
    (epsilon : α) (minIterations : ℕ) (tolerance : α) :
    exOk (sinkhorn_log_domain exp log srcPts tgtPts srcWgts tgtWgts epsilon
        minIterations 1 tolerance) = true ∧
    iterationsOf (sinkhorn_log_domain exp log srcPts tgtPts srcWgts tgtWgts epsilon
        minIterations 1 tolerance) = 1 ∧
    planOf (sinkhorn_log_domain exp log srcPts tgtPts srcWgts tgtWgts epsilon
        minIterations 1 tolerance)
      = fun i j =>
          exp (oneIterLogU exp log (logKernel epsilon (costMatrix srcPts tgtPts))
                (fun i2 => log (normalizeWeights (n + 1) srcWgts i2 + floorWeight)) i
              + logKernel epsilon (costMatrix srcPts tgtPts) i j
              + oneIterLogV exp log (logKernel epsilon (costMatrix srcPts tgtPts))
                (fun i2 => log (normalizeWeights (n + 1) srcWgts i2 + floorWeight))
                (fun j2 => log (normalizeWeights (m + 1) tgtWgts j2 + floorWeight)) j)
            / ((∑ j2, exp (oneIterLogU exp log (logKernel epsilon (costMatrix srcPts tgtPts))
                (fun i2 => log (normalizeWeights (n + 1) srcWgts i2 + floorWeight)) i
              + logKernel epsilon (costMatrix srcPts tgtPts) i j2
              + oneIterLogV exp log (logKernel epsilon (costMatrix srcPts tgtPts))
                (fun i2 => log (normalizeWeights (n + 1) srcWgts i2 + floorWeight))
                (fun j2 => log (normalizeWeights (m + 1) tgtWgts j2 + floorWeight)) j2))
              + floorRow) := by
  obtain ⟨s, hs, hrun⟩ := sinkhorn_result exp log srcPts tgtPts srcWgts tgtWgts epsilon
    minIterations 0 tolerance
  rw [loopFinalOf_one_iter] at hs
  have hseq : s = oneIterState exp log (logKernel epsilon (costMatrix srcPts tgtPts))
      (fun i => log (normalizeWeights (n + 1) srcWgts i + floorWeight))
      (fun j => log (normalizeWeights (m + 1) tgtWgts j + floorWeight))
      (normalizeWeights (m + 1) tgtWgts) tolerance minIterations := by
    cases hs
    rfl
  subst hseq
  refine ⟨?_, ?_, ?_⟩
  · rw [hrun, exOk_ok]
  · rw [hrun, iterationsOf_ok]
    rfl
  · rw [hrun, planOf_ok]
    rfl


/-! ### General facts about the returned plan over `ℝ` -/

theorem rowMassOf_eq (exp log : α → α) {n m d : ℕ}
    (srcPts : Fin n → Fin d → α) (tgtPts : Fin m → Fin d → α)
    (srcWgts : Option (Fin n → α)) (tgtWgts : Option (Fin m → α))
    (epsilon : α) (minIterations maxIterations : ℕ) (tolerance : α)
    (s : SinkhornState n m α)
    (hs : loopFinalOf exp log srcPts tgtPts srcWgts tgtWgts epsilon minIterations
        maxIterations tolerance = .ok s) (i : Fin n) :
    rowMassOf exp log srcPts tgtPts srcWgts tgtWgts epsilon minIterations
        maxIterations tolerance i
      = ∑ j, exp (s.logU i + logKernel epsilon (costMatrix srcPts tgtPts) i j
          + s.logV j) := by
  unfold rowMassOf
  rw [hs]

theorem planEntry_nonneg {n m d : ℕ}
    (srcPts : Fin (n + 1) → Fin d → ℝ) (tgtPts : Fin (m + 1) → Fin d → ℝ)
    (srcWgts : Option (Fin (n + 1) → ℝ)) (tgtWgts : Option (Fin (m + 1) → ℝ))
    (epsilon : ℝ) (minIterations T : ℕ) (tolerance : ℝ) (i : Fin (n + 1)) (j : Fin (m + 1)) :
    0 ≤ planOf (sinkhorn_log_domain Real.exp Real.log srcPts tgtPts srcWgts tgtWgts
      epsilon minIterations (T + 1) tolerance) i j := by
  obtain ⟨s, hs, hrun⟩ := sinkhorn_result Real.exp Real.log srcPts tgtPts srcWgts tgtWgts
    epsilon minIterations T tolerance
  rw [hrun, planOf_ok]
  dsimp only
  have hsum := sum_exp_pos fun j2 =>
    s.logU i + logKernel epsilon (costMatrix srcPts tgtPts) i j2 + s.logV j2
  have hfr : (0 : ℝ) < floorRow := by norm_num [floorRow]
  exact div_nonneg (Real.exp_pos _).le (by linarith)

theorem planRow_sum_le_one {n m d : ℕ}
    (srcPts : Fin (n + 1) → Fin d → ℝ) (tgtPts : Fin (m + 1) → Fin d → ℝ)
    (srcWgts : Option (Fin (n + 1) → ℝ)) (tgtWgts : Option (Fin (m + 1) → ℝ))
    (epsilon : ℝ) (minIterations T : ℕ) (tolerance : ℝ) (i : Fin (n + 1)) :
    ∑ j, planOf (sinkhorn_log_domain Real.exp Real.log srcPts tgtPts srcWgts tgtWgts
      epsilon minIterations (T + 1) tolerance) i j ≤ 1 := by
  obtain ⟨s, hs, hrun⟩ := sinkhorn_result Real.exp Real.log srcPts tgtPts srcWgts tgtWgts
    epsilon minIterations T tolerance
  rw [hrun, planOf_ok]
  dsimp only
  rw [← Finset.sum_div]
  have hsum := sum_exp_pos fun j2 =>
    s.logU i + logKernel epsilon (costMatrix srcPts tgtPts) i j2 + s.logV j2
  have hfr : (0 : ℝ) < floorRow := by norm_num [floorRow]
  rw [div_le_one (by linarith)]
  linarith

/-! ### Claim C1 (amended) -/

/-- C1 (amended): on non-empty point sets the solver returns normally, every
entry of the returned transport matrix is nonnegative, and every row sums to
at most 1; moreover a row sums to 1 within `1e-6` whenever its
pre-renormalization mass (the row sum that line 269 divides by) is at least
`1e-294`.  The unconditional claim — every row sums to 1 within `1e-6` — is
false: the counterexample below exhibits valid inputs with a row whose mass
falls so far below the `1e-300` floor that the renormalized row sums to
nearly 0. -/
theorem transport_row_sum_amended {n m d : ℕ}
    (srcPts : Fin (n + 1) → Fin d → ℝ) (tgtPts : Fin (m + 1) → Fin d → ℝ)
    (srcWgts : Option (Fin (n + 1) → ℝ)) (tgtWgts : Option (Fin (m + 1) → ℝ))
    (epsilon : ℝ) (minIterations T : ℕ) (tolerance : ℝ) :
    exOk (sinkhorn_log_domain Real.exp Real.log srcPts tgtPts srcWgts tgtWgts
        epsilon minIterations (T + 1) tolerance) = true ∧
    (∀ i j, 0 ≤ planOf (sinkhorn_log_domain Real.exp Real.log srcPts tgtPts srcWgts
        tgtWgts epsilon minIterations (T + 1) tolerance) i j) ∧
    (∀ i, ∑ j, planOf (sinkhorn_log_domain Real.exp Real.log srcPts tgtPts srcWgts
        tgtWgts epsilon minIterations (T + 1) tolerance) i j ≤ 1) ∧
    (∀ i, 1 / 10 ^ 294 ≤ rowMassOf Real.exp Real.log srcPts tgtPts srcWgts tgtWgts
        epsilon minIterations (T + 1) tolerance i →
      |(∑ j, planOf (sinkhorn_log_domain Real.exp Real.log srcPts tgtPts srcWgts
        tgtWgts epsilon minIterations (T + 1) tolerance) i j) - 1| ≤ 1 / 10 ^ 6) := by
  obtain ⟨s, hs, hrun⟩ := sinkhorn_result Real.exp Real.log srcPts tgtPts srcWgts tgtWgts
    epsilon minIterations T tolerance
  refine ⟨by rw [hrun, exOk_ok],
    fun i j => planEntry_nonneg srcPts tgtPts srcWgts tgtWgts epsilon minIterations T
      tolerance i j,
    fun i => planRow_sum_le_one srcPts tgtPts srcWgts tgtWgts epsilon minIterations T
      tolerance i,
    fun i hmass => ?_⟩
  rw [rowMassOf_eq Real.exp Real.log srcPts tgtPts srcWgts tgtWgts epsilon minIterations
    (T + 1) tolerance s hs i] at hmass
  rw [hrun, planOf_ok]
  dsimp only
  rw [← Finset.sum_div]
  have hsum := sum_exp_pos fun j2 =>
    s.logU i + logKernel epsilon (costMatrix srcPts tgtPts) i j2 + s.logV j2
  set S : ℝ := ∑ j, Real.exp (s.logU i + logKernel epsilon (costMatrix srcPts tgtPts) i j
    + s.logV j) with hSdef
  have hfr : floorRow (α := ℝ) = 1 / 10 ^ 300 := rfl
  have hfr0 : (0 : ℝ) < floorRow := by norm_num [floorRow]
  have hle : S / (S + floorRow) ≤ 1 := by
    rw [div_le_one (by linarith)]
    linarith
  have hge : 1 - 1 / 10 ^ 6 ≤ S / (S + floorRow) := by
    rw [le_div_iff (by linarith)]
    rw [hfr]
    nlinarith [hmass]
  rw [abs_le]
  constructor <;> linarith

/-! ### Claim C3 -/

/-- C3: whenever the loop finishes with no stop recorded (neither the
tolerance condition nor the stagnation condition ever triggered before
`max_iterations` was exhausted), the returned `ConvergenceInfo` carries the
`maxIterationsReached` kind — which the code represents as the untouched
initial `converge_type = ""` string. -/
theorem exhausted_run_maxIterationsReached (exp log : ℝ → ℝ) {n m d : ℕ}
    (srcPts : Fin n → Fin d → ℝ) (tgtPts : Fin m → Fin d → ℝ)
    (srcWgts : Option (Fin n → ℝ)) (tgtWgts : Option (Fin m → ℝ))
    (epsilon : ℝ) (minIterations T : ℕ) (tolerance : ℝ)
    (hok : exOk (loopFinalOf exp log srcPts tgtPts srcWgts tgtWgts epsilon minIterations
        (T + 1) tolerance) = true)
    (hstop : stopOf (loopFinalOf exp log srcPts tgtPts srcWgts tgtWgts epsilon
        minIterations (T + 1) tolerance) = none) :
    convergeTypeOf (sinkhorn_log_domain exp log srcPts tgtPts srcWgts tgtWgts epsilon
        minIterations (T + 1) tolerance) = .maxIterationsReached := by
  obtain ⟨s, hs⟩ := (exOk_iff _).mp hok
  rw [hs, stopOf_ok] at hstop
  unfold sinkhorn_log_domain
  rw [hs]
  dsimp only
  rw [hstop]
  rfl

/-! ### Claim C4 (amended) -/

/-- C4 (amended): the code performs no configuration validation at all.  A
call with `epsilon < 0`, or with `min_iterations > max_iterations`, is not
rejected: for any `max_iterations = T + 1 ≥ 1` the loop runs and the solver
returns a transport plan together with an iteration count of at least 1.
(`max_iterations = 0` is also not rejected with a configuration error: the
loop body never runs and the `info` construction raises `NameError` on the
unbound loop variable, modelled as `iterationUnbound`; `epsilon = 0` is
likewise unvalidated and produces a division by zero in the kernel.) -/
theorem no_configuration_validation {n m d : ℕ}
    (srcPts : Fin (n + 1) → Fin d → ℝ) (tgtPts : Fin (m + 1) → Fin d → ℝ)
    (srcWgts : Option (Fin (n + 1) → ℝ)) (tgtWgts : Option (Fin (m + 1) → ℝ))
    (epsilon : ℝ) (minIterations T : ℕ) (tolerance : ℝ)
    (hbad : epsilon < 0 ∨ T + 1 < minIterations) :
    exOk (sinkhorn_log_domain Real.exp Real.log srcPts tgtPts srcWgts tgtWgts epsilon
        minIterations (T + 1) tolerance) = true ∧
    1 ≤ iterationsOf (sinkhorn_log_domain Real.exp Real.log srcPts tgtPts srcWgts
        tgtWgts epsilon minIterations (T + 1) tolerance) := by
  obtain ⟨s, hs, hrun⟩ := sinkhorn_result Real.exp Real.log srcPts tgtPts srcWgts tgtWgts
    epsilon minIterations T tolerance
  constructor
  · rw [hrun, exOk_ok]
  · rw [hrun, iterationsOf_ok]
    exact Nat.le_add_left 1 s.lastIter

/-! ### Claim C5 (amended) -/

/-- A run on an empty source or target point set dies with the backend
reduction error raised inside the first loop pass. -/
theorem empty_input_error_aux {n m d : ℕ} (hnm : n = 0 ∨ m = 0)
    (srcPts : Fin n → Fin d → ℝ) (tgtPts : Fin m → Fin d → ℝ)
    (srcWgts : Option (Fin n → ℝ)) (tgtWgts : Option (Fin m → ℝ))
    (epsilon : ℝ) (minIterations T : ℕ) (tolerance : ℝ) :
    sinkhorn_log_domain Real.exp Real.log srcPts tgtPts srcWgts tgtWgts epsilon
        minIterations (T + 1) tolerance = .error .emptyAxisReduction := by
  have hstep : ∀ (K : Fin n → Fin m → ℝ) (logSrcW : Fin n → ℝ) (logTgtW tgtW : Fin m → ℝ),
      sinkhornStep Real.exp Real.log K logSrcW logTgtW tgtW tolerance minIterations
        (T + 1) 0 (initState n m) = .error .emptyAxisReduction := by
    intro K logSrcW logTgtW tgtW
    have hc : checkCond (T + 1) 0 = true := by
      simp [checkCond]
    rcases hnm with h | h
    · subst h
      cases m with
      | zero =>
        simp only [sinkhornStep, initState, Option.isSome_none, Bool.false_eq_true,
          if_false, logsumexpAxis, vecMaxE, hc, if_true]
      | succ m2 =>
        simp only [sinkhornStep, initState, Option.isSome_none, Bool.false_eq_true,
          if_false, logsumexpAxis, vecMaxE, hc, if_true]
    · subst h
      cases n with
      | zero =>
        simp only [sinkhornStep, initState, Option.isSome_none, Bool.false_eq_true,
          if_false, logsumexpAxis, vecMaxE, hc, if_true]
      | succ n2 =>
        simp only [sinkhornStep, initState, Option.isSome_none, Bool.false_eq_true,
          if_false, logsumexpAxis, vecMaxE, hc, if_true]
  unfold sinkhorn_log_domain loopFinalOf sinkhornLoopFinal
  rw [sinkhornLoop, hstep]

/-- C5 (amended): an empty source or target point set is not rejected with any
dedicated empty-input error before matrices are built.  The code has no
emptiness check at all: the weight vectors, the cost matrix and the log-kernel
are all constructed for the degenerate shape, and the run then dies inside the
first loop pass when a reduction over the empty axis reaches the backend —
a generic `ValueError` (modelled `.error .emptyAxisReduction`), not a
dedicated `EmptyInput` rejection, which does not exist anywhere in the code. -/
theorem empty_input_no_rejection {n m d : ℕ} (hnm : n = 0 ∨ m = 0)
    (srcPts : Fin n → Fin d → ℝ) (tgtPts : Fin m → Fin d → ℝ)
    (srcWgts : Option (Fin n → ℝ)) (tgtWgts : Option (Fin m → ℝ))
    (epsilon : ℝ) (minIterations T : ℕ) (tolerance : ℝ) :
    sinkhorn_log_domain Real.exp Real.log srcPts tgtPts srcWgts tgtWgts epsilon
        minIterations (T + 1) tolerance = .error .emptyAxisReduction :=
  empty_input_error_aux hnm srcPts tgtPts srcWgts tgtWgts epsilon minIterations T
    tolerance

/-- C5 counterexample: with an empty source point set (`n = 0`, `m = 1`) and
otherwise valid parameters, the call does not produce an `EmptyInput`
rejection before any matrix is built — the pipeline builds its matrices and
then crashes inside the first loop pass with the generic backend
empty-axis-reduction error. -/
theorem empty_input_crash_counterexample :
    sinkhorn_log_domain Real.exp Real.log (fun i _ => i.elim0 : Fin 0 → Fin 1 → ℝ)
      ![![0]] none none 1 0 1 (1 / 10 ^ 8) = .error .emptyAxisReduction :=
  empty_input_error_aux (Or.inl rfl) (fun i _ => i.elim0) ![![0]] none none 1 0 0
    (1 / 10 ^ 8)

/-- Witness for C5 (amended) at a concrete input: an empty target point set
(`n = 1`, `m = 0`). -/
theorem empty_input_no_rejection_witness :
    (0 = 0 ∨ (0 : ℕ) = 0) ∧
    sinkhorn_log_domain Real.exp Real.log (![![0]] : Fin 1 → Fin 1 → ℝ)
      (fun j _ => j.elim0 : Fin 0 → Fin 1 → ℝ) none none 1 0 1 (1 / 10 ^ 8)
      = .error .emptyAxisReduction :=
  ⟨Or.inr rfl,
    empty_input_no_rejection (Or.inr rfl) ![![0]] (fun j _ => j.elim0) none none 1 0 0
      (1 / 10 ^ 8)⟩

/-! ### Claim C7 (amended) -/

/-- C7 (amended): every coordinate of a mapped point lies between
`min lo 0` and `max hi 0`, where `lo` and `hi` bound the target coordinates
on that axis — formally, for any `lo ≤ 0` and `hi ≥ 0` enclosing all target
coordinates, the mapped coordinate lies in `[lo, hi]`.  Containment in the
convex hull of the targets themselves can fail, because the rows of the
returned plan sum to slightly less than 1 (and to nearly 0 for rows whose
mass vanishes under the `1e-300` floor), as the counterexample shows. -/
theorem transport_apply_bounds_amended {n m d : ℕ}
    (srcPts : Fin (n + 1) → Fin d → ℝ) (tgtPts : Fin (m + 1) → Fin d → ℝ)
    (srcWgts : Option (Fin (n + 1) → ℝ)) (tgtWgts : Option (Fin (m + 1) → ℝ))
    (epsilon : ℝ) (minIterations T : ℕ) (tolerance : ℝ)
    (i : Fin (n + 1)) (a : Fin d) (lo hi : ℝ)
    (hlo : ∀ j, lo ≤ tgtPts j a) (hhi : ∀ j, tgtPts j a ≤ hi)
    (hlo0 : lo ≤ 0) (hhi0 : 0 ≤ hi) :
    lo ≤ applyTransportMatrix (planOf (sinkhorn_log_domain Real.exp Real.log srcPts
        tgtPts srcWgts tgtWgts epsilon minIterations (T + 1) tolerance)) tgtPts i a ∧
    applyTransportMatrix (planOf (sinkhorn_log_domain Real.exp Real.log srcPts
        tgtPts srcWgts tgtWgts epsilon minIterations (T + 1) tolerance)) tgtPts i a
      ≤ hi := by
  have hnn := planEntry_nonneg srcPts tgtPts srcWgts tgtWgts epsilon minIterations T
    tolerance i
  have hrow := planRow_sum_le_one srcPts tgtPts srcWgts tgtWgts epsilon minIterations T
    tolerance i
  have hrow0 : 0 ≤ ∑ j, planOf (sinkhorn_log_domain Real.exp Real.log srcPts tgtPts
      srcWgts tgtWgts epsilon minIterations (T + 1) tolerance) i j :=
    Finset.sum_nonneg fun j _ => hnn j
  unfold applyTransportMatrix
  constructor
  · calc lo = 1 * lo := (one_mul lo).symm
      _ ≤ (∑ j, planOf (sinkhorn_log_domain Real.exp Real.log srcPts tgtPts srcWgts
            tgtWgts epsilon minIterations (T + 1) tolerance) i j) * lo :=
        mul_le_mul_of_nonpos_right hrow hlo0
      _ = ∑ j, planOf (sinkhorn_log_domain Real.exp Real.log srcPts tgtPts srcWgts
            tgtWgts epsilon minIterations (T + 1) tolerance) i j * lo :=
        Finset.sum_mul _ _ _
      _ ≤ ∑ j, planOf (sinkhorn_log_domain Real.exp Real.log srcPts tgtPts srcWgts
            tgtWgts epsilon minIterations (T + 1) tolerance) i j * tgtPts j a :=
        Finset.sum_le_sum fun j _ => mul_le_mul_of_nonneg_left (hlo j) (hnn j)
  · calc (∑ j, planOf (sinkhorn_log_domain Real.exp Real.log srcPts tgtPts srcWgts
            tgtWgts epsilon minIterations (T + 1) tolerance) i j * tgtPts j a)
        ≤ ∑ j, planOf (sinkhorn_log_domain Real.exp Real.log srcPts tgtPts srcWgts
            tgtWgts epsilon minIterations (T + 1) tolerance) i j * hi :=
        Finset.sum_le_sum fun j _ => mul_le_mul_of_nonneg_left (hhi j) (hnn j)
      _ = (∑ j, planOf (sinkhorn_log_domain Real.exp Real.log srcPts tgtPts srcWgts
            tgtWgts epsilon minIterations (T + 1) tolerance) i j) * hi :=
        (Finset.sum_mul _ _ _).symm
      _ ≤ 1 * hi := mul_le_mul_of_nonneg_right hrow hhi0
      _ = hi := one_mul hi

/-! ### Claim C9 -/

/-- C9: for every input array whose length along the reduction axis is 1, the
Log-Sum-Exp primitive returns the input unchanged: each output element equals
the corresponding input element.  (With a single element, the shifted value is
`v - v = 0`, `exp 0 = 1`, `log 1 = 0`, and the max `v` is added back.) -/
theorem logsumexp_axis_length_one_id (n : ℕ) (M : Fin n → Fin 1 → ℝ) :
    logsumexpAxis Real.exp Real.log M = .ok fun i => M i 0 := by
  rw [logsumexpAxis_ok]
  congr 1
  funext i
  exact logsumexp_singleton (M i)

/-! ### Claim C8 -/

/-- C8: the convergence-check condition of line 234 holds exactly at iteration
0, at every iteration index that is a multiple of 32 (the bitwise `& 31`
equals `% 32`), and at the final allowed index `max_iterations - 1`, and at no
other iteration. -/
theorem checkCond_iff (maxIterations iteration : ℕ) :
    checkCond maxIterations iteration = true ↔
      iteration = 0 ∨ iteration % 32 = 0 ∨ iteration = maxIterations - 1 := by
  unfold checkCond
  rw [Bool.or_eq_true, beq_iff_eq, beq_iff_eq]
  have h31 : (31 : ℕ) = 2 ^ 5 - 1 := by norm_num
  rw [h31, Nat.and_pow_two_sub_one_eq_mod]
  have h32 : (2 : ℕ) ^ 5 = 32 := by norm_num
  rw [h32]
  constructor
  · rintro (h | h)
    · exact Or.inr (Or.inl h)
    · exact Or.inr (Or.inr h)
  · rintro (h | h | h)
    · exact Or.inl (by simp [h])
    · exact Or.inl h
    · exact Or.inr h

/-! ### Claim C6 -/

/-- The broadcast cost-matrix formula expands to the squared Euclidean
distance, for any dimensionality. -/
theorem costMatrix_sq_dist_aux {n m d : ℕ}
    (src : Fin n → Fin d → ℝ) (tgt : Fin m → Fin d → ℝ) (i : Fin n) (j : Fin m) :
    costMatrix src tgt i j = ∑ a, (src i a - tgt j a) ^ 2 := by
  unfold costMatrix
  rw [Finset.mul_sum, ← Finset.sum_add_distrib, ← Finset.sum_sub_distrib]
  exact Finset.sum_congr rfl fun a _ => by ring

/-- C6: for any dimensionality `d ≥ 1`, the broadcast cost-matrix formula of
lines 147-167 (row sums of squares, plus column sums of squares, minus twice
the matrix product with the transpose) gives exactly the squared Euclidean
distance between source point `i` and target point `j`. -/
theorem costMatrix_eq_sq_dist {n m d : ℕ} (hd : 1 ≤ d)
    (src : Fin n → Fin d → ℝ) (tgt : Fin m → Fin d → ℝ) (i : Fin n) (j : Fin m) :
    costMatrix src tgt i j = ∑ a, (src i a - tgt j a) ^ 2 :=
  costMatrix_sq_dist_aux src tgt i j

theorem costMatrix_eq_sq_dist_witness :
    1 ≤ 1 ∧ costMatrix (α := ℝ) ![![3]] ![![5]] 0 0
      = ∑ a, ((![![3]] : Fin 1 → Fin 1 → ℝ) 0 a - (![![5]] : Fin 1 → Fin 1 → ℝ) 0 a) ^ 2 :=
  ⟨le_refl 1, costMatrix_eq_sq_dist (le_refl 1) ![![3]] ![![5]] 0 0⟩

/-! ### Claim C2 -/

/-- C2: at a convergence check whose iteration index has reached
`min_iterations`, the solver stops with the `"Error < tolerance"` kind
(spec name `ErrorBelowTolerance`) when the current marginal error is below
`tolerance`; otherwise it stops with the `"Stagnation"` kind when the
absolute difference between the previous and current marginal errors is below
`1e-12`; otherwise it continues and records the current error as
`previous_error` for the next check.  The initial `previous_error = inf`
(modelled `none`) can never trigger stagnation. -/
theorem convergenceDecision_spec (minIterations iteration : ℕ)
    (tolerance err p : ℝ) (hmin : minIterations ≤ iteration) :
    (err < tolerance →
      convergenceDecision minIterations tolerance iteration (some p) err
        = (some .errorBelowTolerance, some p) ∧
      convergenceDecision minIterations tolerance iteration none err
        = (some .errorBelowTolerance, none)) ∧
    (¬ err < tolerance → |p - err| < 1 / 10 ^ 12 →
      convergenceDecision minIterations tolerance iteration (some p) err
        = (some .stagnation, some p)) ∧
    (¬ err < tolerance → ¬ |p - err| < 1 / 10 ^ 12 →
      convergenceDecision minIterations tolerance iteration (some p) err
        = (none, some err)) ∧
    (¬ err < tolerance →
      convergenceDecision minIterations tolerance iteration none err
        = (none, some err)) := by
  have hth : stagnationThreshold (α := ℝ) = 1 / 10 ^ 12 := rfl
  refine ⟨fun h1 => ?_, fun h1 h2 => ?_, fun h1 h2 => ?_, fun h1 => ?_⟩
  · constructor <;> simp [convergenceDecision, stagnationHit, hmin, h1]
  · have h2i : |p - err| < stagnationThreshold (α := ℝ) := by rw [hth]; exact h2
    simp [convergenceDecision, stagnationHit, hmin, h1, h2i]
  · have h2i : ¬ |p - err| < stagnationThreshold (α := ℝ) := by rw [hth]; exact h2
    simp [convergenceDecision, stagnationHit, hmin, h1, h2i]
  · simp [convergenceDecision, stagnationHit, hmin, h1]

theorem convergenceDecision_spec_witness :
    0 ≤ 0 ∧ convergenceDecision 0 (1 : ℝ) 0 (some (1 / 3)) (1 / 2)
      = (some .errorBelowTolerance, some (1 / 3)) :=
  ⟨le_refl 0,
    ((convergenceDecision_spec 0 0 1 (1 / 2) (1 / 3) (le_refl 0)).1 (by norm_num)).1⟩

/-! ### Counterexample and witnesses built on the one-pass closed form -/

/-- C4 counterexample: a call with `epsilon = -1 < 0` (and otherwise valid
arguments) is not rejected: the solver runs its loop — the returned
`ConvergenceInfo` records one executed iteration — and returns a transport
plan, contradicting a rejection with no transport plan before any iteration
runs. -/
theorem negative_epsilon_runs_counterexample :
    exOk (sinkhorn_log_domain Real.exp Real.log (![![0]] : Fin 1 → Fin 1 → ℝ) ![![0]]
      none none (-1) 0 1 (1 / 10 ^ 8)) = true ∧
    iterationsOf (sinkhorn_log_domain Real.exp Real.log (![![0]] : Fin 1 → Fin 1 → ℝ)
      ![![0]] none none (-1) 0 1 (1 / 10 ^ 8)) = 1 := by
  have h := sinkhorn_one_iter Real.exp Real.log (![![0]] : Fin 1 → Fin 1 → ℝ) ![![0]]
    none none (-1) 0 (1 / 10 ^ 8)
  exact ⟨h.1, h.2.1⟩

/-- Witness for C4 (amended) at `epsilon = -1`. -/
theorem no_configuration_validation_witness :
    ((-1 : ℝ) < 0 ∨ 0 + 1 < 0) ∧
    (exOk (sinkhorn_log_domain Real.exp Real.log (![![0]] : Fin 1 → Fin 1 → ℝ) ![![0]]
        none none (-1) 0 1 (1 / 10 ^ 8)) = true ∧
      1 ≤ iterationsOf (sinkhorn_log_domain Real.exp Real.log (![![0]] : Fin 1 → Fin 1 → ℝ)
        ![![0]] none none (-1) 0 1 (1 / 10 ^ 8))) :=
  ⟨Or.inl (by norm_num),
    no_configuration_validation ![![0]] ![![0]] none none (-1) 0 0 (1 / 10 ^ 8)
      (Or.inl (by norm_num))⟩

/-- Witness for C3 at a concrete run: `min_iterations = 5 > 0`, so the single
check at iteration 0 cannot stop, the loop exhausts `max_iterations = 1`, and
the returned kind is `maxIterationsReached`. -/
theorem exhausted_run_maxIterationsReached_witness :
    exOk (loopFinalOf Real.exp Real.log (![![0]] : Fin 1 → Fin 1 → ℝ) ![![0]] none none
        1 5 1 (1 / 10 ^ 8)) = true ∧
    stopOf (loopFinalOf Real.exp Real.log (![![0]] : Fin 1 → Fin 1 → ℝ) ![![0]] none none
        1 5 1 (1 / 10 ^ 8)) = none ∧
    convergeTypeOf (sinkhorn_log_domain Real.exp Real.log (![![0]] : Fin 1 → Fin 1 → ℝ)
        ![![0]] none none 1 5 1 (1 / 10 ^ 8)) = .maxIterationsReached := by
  have hs := loopFinalOf_one_iter Real.exp Real.log (![![0]] : Fin 1 → Fin 1 → ℝ) ![![0]]
    none none 1 5 (1 / 10 ^ 8)
  have hok : exOk (loopFinalOf Real.exp Real.log (![![0]] : Fin 1 → Fin 1 → ℝ) ![![0]]
      none none 1 5 1 (1 / 10 ^ 8)) = true := by
    rw [hs, exOk_ok]
  have hstop : stopOf (loopFinalOf Real.exp Real.log (![![0]] : Fin 1 → Fin 1 → ℝ) ![![0]]
      none none 1 5 1 (1 / 10 ^ 8)) = none := by
    rw [hs, stopOf_ok]
    simp [oneIterState, convergenceDecision]
  exact ⟨hok, hstop,
    exhausted_run_maxIterationsReached Real.exp Real.log ![![0]] ![![0]] none none 1 5 0
      (1 / 10 ^ 8) hok hstop⟩

/-- Witness for C7 (amended) at a concrete input whose target coordinates are
all 0, with bounds `lo = hi = 0`. -/
theorem transport_apply_bounds_amended_witness :
    0 ≤ applyTransportMatrix (planOf (sinkhorn_log_domain Real.exp Real.log
        (![![0]] : Fin 1 → Fin 1 → ℝ) ![![0]] none none 1 0 1 (1 / 10 ^ 8))) ![![0]] 0 0 ∧
    applyTransportMatrix (planOf (sinkhorn_log_domain Real.exp Real.log
        (![![0]] : Fin 1 → Fin 1 → ℝ) ![![0]] none none 1 0 1 (1 / 10 ^ 8))) ![![0]] 0 0
      ≤ 0 :=
  transport_apply_bounds_amended ![![0]] ![![0]] none none 1 0 0 (1 / 10 ^ 8) 0 0 0 0
    (fun j => by fin_cases j <;> norm_num) (fun j => by fin_cases j <;> norm_num)
    le_rfl le_rfl

/-- On the trivial one-point input (source and target both the origin,
uniform weights, `epsilon = 1`, one iteration) the pre-renormalization row
mass is `1 + 1e-256`. -/
theorem trivial_mass_eq :
    rowMassOf Real.exp Real.log (![![0]] : Fin 1 → Fin 1 → ℝ) ![![0]] none none 1 0 1
      (1 / 10 ^ 8) 0 = 1 + floorWeight := by
  have hs := loopFinalOf_one_iter Real.exp Real.log (![![0]] : Fin 1 → Fin 1 → ℝ) ![![0]]
    none none 1 0 (1 / 10 ^ 8)
  rw [rowMassOf_eq Real.exp Real.log (![![0]] : Fin 1 → Fin 1 → ℝ) ![![0]] none none 1 0 1
    (1 / 10 ^ 8) _ hs 0, Fin.sum_univ_one]
  have hw : normalizeWeights 1 (none : Option (Fin 1 → ℝ)) = fun _ => 1 := by
    funext j
    norm_num [normalizeWeights, Fin.sum_univ_one]
  have hK : logKernel (1 : ℝ) (costMatrix (![![0]] : Fin 1 → Fin 1 → ℝ) ![![0]])
      = fun _ _ => 0 := by
    funext i j
    norm_num [logKernel, costMatrix, Fin.sum_univ_one]
  simp only [oneIterState, oneIterLogV, oneIterLogU, hK, hw]
  simp only [logsumexp_singleton]
  have hpos : (0 : ℝ) < 1 + floorWeight := by norm_num [floorWeight]
  rw [show ∀ x y : ℝ, x - y + 0 + (x - (0 + (x - y))) = x + (x - y) - (x - y) from
    fun x y => by ring]
  rw [add_sub_cancel_right, Real.exp_log hpos]

/-- Witness for C1 (amended) at the trivial one-point input, whose
pre-renormalization row mass `1 + 1e-256` clears the `1e-294` bound, so the
row sum is within `1e-6` of 1. -/
theorem transport_row_sum_amended_witness :
    (1 / 10 ^ 294 ≤ rowMassOf Real.exp Real.log (![![0]] : Fin 1 → Fin 1 → ℝ) ![![0]]
        none none 1 0 1 (1 / 10 ^ 8) 0) ∧
    (0 ≤ planOf (sinkhorn_log_domain Real.exp Real.log (![![0]] : Fin 1 → Fin 1 → ℝ)
        ![![0]] none none 1 0 1 (1 / 10 ^ 8)) 0 0) ∧
    |(∑ j, planOf (sinkhorn_log_domain Real.exp Real.log (![![0]] : Fin 1 → Fin 1 → ℝ)
        ![![0]] none none 1 0 1 (1 / 10 ^ 8)) 0 j) - 1| ≤ 1 / 10 ^ 6 := by
  have hmass : 1 / 10 ^ 294 ≤ rowMassOf Real.exp Real.log (![![0]] : Fin 1 → Fin 1 → ℝ)
      ![![0]] none none 1 0 1 (1 / 10 ^ 8) 0 := by
    rw [trivial_mass_eq]
    norm_num [floorWeight]
  have h := transport_row_sum_amended (![![0]] : Fin 1 → Fin 1 → ℝ) ![![0]] none none 1 0
    0 (1 / 10 ^ 8)
  exact ⟨hmass, h.2.1 0 0, h.2.2.2 0 hmass⟩

/-! ### The vanishing-row counterexample for C1 and C7 -/

theorem exp_neg_million_le : Real.exp (-(10 ^ 6 : ℝ)) ≤ 1 / 10 ^ 100 := by
  have h3 : (1001 : ℝ) ≤ Real.exp 1000 := by
    have h := Real.add_one_le_exp (1000 : ℝ)
    linarith
  have h5 : (10 : ℝ) ^ 100 ≤ Real.exp (10 ^ 6 : ℝ) := by
    have h51 : (10 ^ 6 : ℝ) = ((1000 : ℕ) : ℝ) * 1000 := by norm_num
    have h52 : Real.exp (((1000 : ℕ) : ℝ) * 1000) = Real.exp 1000 ^ (1000 : ℕ) :=
      Real.exp_nat_mul 1000 1000
    have h41 : (10 : ℝ) ^ 3000 = ((10 : ℝ) ^ 3) ^ (1000 : ℕ) := by
      rw [← pow_mul]
    have h42 : ((10 : ℝ) ^ 3) ^ (1000 : ℕ) ≤ (1001 : ℝ) ^ (1000 : ℕ) :=
      pow_le_pow_left (by norm_num) (by norm_num) 1000
    have h43 : (1001 : ℝ) ^ (1000 : ℕ) ≤ Real.exp 1000 ^ (1000 : ℕ) :=
      pow_le_pow_left (by norm_num) h3 1000
    have h53 : (10 : ℝ) ^ 100 ≤ (10 : ℝ) ^ 3000 := by
      apply pow_le_pow_right (by norm_num : (1 : ℝ) ≤ 10)
      norm_num
    rw [h51, h52]
    linarith
  have hpos : (0 : ℝ) < 10 ^ 100 := by positivity
  rw [Real.exp_neg, one_div]
  exact inv_le_inv_of_le hpos h5

/-- The exponentiated scaled-kernel entry after one pass, written as the
products and quotients of exponentials of the inputs. -/
theorem one_iter_entry_formula {n m : ℕ} (K : Fin (n + 1) → Fin (m + 1) → ℝ)
    (lw : Fin (n + 1) → ℝ) (ltw : Fin (m + 1) → ℝ) (i : Fin (n + 1)) (j : Fin (m + 1)) :
    Real.exp (oneIterLogU Real.exp Real.log K lw i + K i j
        + oneIterLogV Real.exp Real.log K lw ltw j)
      = Real.exp (lw i) / (∑ j2, Real.exp (K i j2)) * Real.exp (K i j)
        * (Real.exp (ltw j)
            / ∑ i2, Real.exp (K i2 j) * (Real.exp (lw i2) / ∑ j2, Real.exp (K i2 j2))) := by
  unfold oneIterLogU oneIterLogV
  rw [Real.exp_add, Real.exp_add, Real.exp_sub, Real.exp_sub, exp_logsumexp,
    exp_logsumexp]
  congr 2
  refine Finset.sum_congr rfl fun i2 _ => ?_
  rw [Real.exp_add]
  congr 1
  simp only [oneIterLogU]
  rw [Real.exp_sub, exp_logsumexp]

/-- Pure arithmetic core of the vanishing-row counterexample. -/
theorem ce_arith (q : ℝ) (hq0 : 0 < q) (hq1 : q ≤ 1) (hqs : q ≤ 1 / 10 ^ 100) :
    (1 / 10 ^ 256 / (1 + q) *
          (1 / 10 ^ 256 /
            (1 / 10 ^ 256 / (1 + q) + (1 / 2 + 1 / 10 ^ 256) / (1 + q)
              + q * ((1 / 2 + 1 / 10 ^ 256) / (q + 1)))) +
        1 / 10 ^ 256 / (1 + q) * q *
          ((1 + 1 / 10 ^ 256) /
            (q * (1 / 10 ^ 256 / (1 + q)) + q * ((1 / 2 + 1 / 10 ^ 256) / (1 + q)) +
              (1 / 2 + 1 / 10 ^ 256) / (q + 1)))) /
      (1 / 10 ^ 256 / (1 + q) *
            (1 / 10 ^ 256 /
              (1 / 10 ^ 256 / (1 + q) + (1 / 2 + 1 / 10 ^ 256) / (1 + q)
                + q * ((1 / 2 + 1 / 10 ^ 256) / (q + 1)))) +
          1 / 10 ^ 256 / (1 + q) * q *
            ((1 + 1 / 10 ^ 256) /
              (q * (1 / 10 ^ 256 / (1 + q)) + q * ((1 / 2 + 1 / 10 ^ 256) / (1 + q)) +
                (1 / 2 + 1 / 10 ^ 256) / (q + 1))) +
        1 / 10 ^ 300) ≤ 1 / 10 ^ 10 := by
  have h1q : (0 : ℝ) < 1 + q := by linarith
  have hq1p : (0 : ℝ) < q + 1 := by linarith
  set D0 : ℝ := 1 / 10 ^ 256 / (1 + q) + (1 / 2 + 1 / 10 ^ 256) / (1 + q)
    + q * ((1 / 2 + 1 / 10 ^ 256) / (q + 1)) with hD0def
  set D1 : ℝ := q * (1 / 10 ^ 256 / (1 + q)) + q * ((1 / 2 + 1 / 10 ^ 256) / (1 + q)) +
    (1 / 2 + 1 / 10 ^ 256) / (q + 1) with hD1def
  have hD0 : (1 : ℝ) / 4 ≤ D0 := by
    rw [hD0def]
    have e1 : (0 : ℝ) ≤ 1 / 10 ^ 256 / (1 + q) := div_nonneg (by norm_num) h1q.le
    have e3 : (0 : ℝ) ≤ q * ((1 / 2 + 1 / 10 ^ 256) / (q + 1)) :=
      mul_nonneg hq0.le (div_nonneg (by norm_num) hq1p.le)
    have e2 : (1 : ℝ) / 4 ≤ (1 / 2 + 1 / 10 ^ 256) / (1 + q) := by
      rw [le_div_iff h1q]
      nlinarith
    linarith
  have hD1 : (1 : ℝ) / 4 ≤ D1 := by
    rw [hD1def]
    have e1 : (0 : ℝ) ≤ q * (1 / 10 ^ 256 / (1 + q)) :=
      mul_nonneg hq0.le (div_nonneg (by norm_num) h1q.le)
    have e2 : (0 : ℝ) ≤ q * ((1 / 2 + 1 / 10 ^ 256) / (1 + q)) :=
      mul_nonneg hq0.le (div_nonneg (by norm_num) h1q.le)
    have e3 : (1 : ℝ) / 4 ≤ (1 / 2 + 1 / 10 ^ 256) / (q + 1) := by
      rw [le_div_iff hq1p]
      nlinarith
    linarith
  have hD0p : (0 : ℝ) < D0 := lt_of_lt_of_le (by norm_num) hD0
  have hD1p : (0 : ℝ) < D1 := lt_of_lt_of_le (by norm_num) hD1
  set t0 : ℝ := 1 / 10 ^ 256 / (1 + q) * (1 / 10 ^ 256 / D0) with ht0def
  set t1 : ℝ := 1 / 10 ^ 256 / (1 + q) * q * ((1 + 1 / 10 ^ 256) / D1) with ht1def
  have hb1 : 1 / 10 ^ 256 / (1 + q) ≤ (1 : ℝ) / 10 ^ 256 :=
    div_le_self (by norm_num) (by linarith)
  have ht0b : t0 ≤ 4 / 10 ^ 512 := by
    rw [ht0def]
    have b2 : (1 : ℝ) / 10 ^ 256 / D0 ≤ 4 / 10 ^ 256 := by
      calc (1 : ℝ) / 10 ^ 256 / D0 ≤ 1 / 10 ^ 256 / (1 / 4) :=
            div_le_div_of_nonneg_left (by norm_num) (by norm_num) hD0
        _ = 4 / 10 ^ 256 := by norm_num
    calc 1 / 10 ^ 256 / (1 + q) * (1 / 10 ^ 256 / D0)
        ≤ 1 / 10 ^ 256 * (4 / 10 ^ 256) :=
          mul_le_mul hb1 b2 (div_nonneg (by norm_num) hD0p.le) (by norm_num)
      _ = 4 / 10 ^ 512 := by norm_num
  have ht1b : t1 ≤ 8 / 10 ^ 356 := by
    rw [ht1def]
    have b3 : (1 + 1 / 10 ^ 256) / D1 ≤ (8 : ℝ) := by
      calc (1 + 1 / 10 ^ 256 : ℝ) / D1 ≤ (1 + 1 / 10 ^ 256) / (1 / 4) :=
            div_le_div_of_nonneg_left (by norm_num) (by norm_num) hD1
        _ ≤ 8 := by norm_num
    have bq : 1 / 10 ^ 256 / (1 + q) * q ≤ (1 : ℝ) / 10 ^ 256 * (1 / 10 ^ 100) :=
      mul_le_mul hb1 hqs hq0.le (by norm_num)
    calc 1 / 10 ^ 256 / (1 + q) * q * ((1 + 1 / 10 ^ 256) / D1)
        ≤ 1 / 10 ^ 256 * (1 / 10 ^ 100) * 8 :=
          mul_le_mul bq b3 (div_nonneg (by norm_num) hD1p.le) (by positivity)
      _ ≤ 8 / 10 ^ 356 := by norm_num
  have ht00 : (0 : ℝ) ≤ t0 := by
    rw [ht0def]
    exact mul_nonneg (div_nonneg (by norm_num) h1q.le) (div_nonneg (by norm_num) hD0p.le)
  have ht10 : (0 : ℝ) ≤ t1 := by
    rw [ht1def]
    exact mul_nonneg (mul_nonneg (div_nonneg (by norm_num) h1q.le) hq0.le)
      (div_nonneg (by norm_num) hD1p.le)
  have hnum : (4 : ℝ) / 10 ^ 512 + 8 / 10 ^ 356 ≤ 1 / 10 ^ 310 := by norm_num
  have hsum : t0 + t1 ≤ 1 / 10 ^ 310 := by linarith
  calc (t0 + t1) / (t0 + t1 + 1 / 10 ^ 300)
      ≤ (t0 + t1) / (1 / 10 ^ 300) :=
        div_le_div_of_nonneg_left (by linarith) (by norm_num) (by linarith)
    _ ≤ (1 / 10 ^ 310) / (1 / 10 ^ 300) := (div_le_div_right (by norm_num)).mpr hsum
    _ ≤ 1 / 10 ^ 10 := by norm_num

theorem ce_plan_sum_bound (x y : ℝ) (hxy : (x - y) ^ 2 = 10 ^ 6) :
    exOk (sinkhorn_log_domain Real.exp Real.log
        (![![x], ![x], ![y]] : Fin 3 → Fin 1 → ℝ) (![![x], ![y]] : Fin 2 → Fin 1 → ℝ)
        (some ![0, 1, 1]) (some ![0, 1]) 1 0 1 (1 / 10 ^ 8)) = true ∧
    planOf (sinkhorn_log_domain Real.exp Real.log
        (![![x], ![x], ![y]] : Fin 3 → Fin 1 → ℝ) (![![x], ![y]] : Fin 2 → Fin 1 → ℝ)
        (some ![0, 1, 1]) (some ![0, 1]) 1 0 1 (1 / 10 ^ 8)) 0 0
      + planOf (sinkhorn_log_domain Real.exp Real.log
        (![![x], ![x], ![y]] : Fin 3 → Fin 1 → ℝ) (![![x], ![y]] : Fin 2 → Fin 1 → ℝ)
        (some ![0, 1, 1]) (some ![0, 1]) 1 0 1 (1 / 10 ^ 8)) 0 1 ≤ 1 / 10 ^ 10 := by
  obtain ⟨hok, hiter, hplan⟩ := sinkhorn_one_iter Real.exp Real.log
    (![![x], ![x], ![y]] : Fin 3 → Fin 1 → ℝ) (![![x], ![y]] : Fin 2 → Fin 1 → ℝ)
    (some ![0, 1, 1]) (some ![0, 1]) 1 0 (1 / 10 ^ 8)
  refine ⟨hok, ?_⟩
  rw [hplan]
  dsimp only
  have hcost : ∀ (i : Fin 3) (j : Fin 2),
      costMatrix (![![x], ![x], ![y]] : Fin 3 → Fin 1 → ℝ) ![![x], ![y]] i j
        = ((![![x], ![x], ![y]] : Fin 3 → Fin 1 → ℝ) i 0
            - (![![x], ![y]] : Fin 2 → Fin 1 → ℝ) j 0) ^ 2 := by
    intro i j
    rw [costMatrix_sq_dist_aux, Fin.sum_univ_one]
  have hyx : (y - x) ^ 2 = 10 ^ 6 := by nlinarith [hxy]
  have hK00 : logKernel (1 : ℝ)
      (costMatrix (![![x], ![x], ![y]] : Fin 3 → Fin 1 → ℝ) ![![x], ![y]]) 0 0 = 0 := by
    show -(costMatrix (![![x], ![x], ![y]] : Fin 3 → Fin 1 → ℝ) ![![x], ![y]] 0 0) / 1 = 0
    rw [hcost 0 0]
    show -((x - x) ^ 2) / 1 = 0
    ring
  have hK01 : logKernel (1 : ℝ)
      (costMatrix (![![x], ![x], ![y]] : Fin 3 → Fin 1 → ℝ) ![![x], ![y]]) 0 1
        = -(10 ^ 6 : ℝ) := by
    show -(costMatrix (![![x], ![x], ![y]] : Fin 3 → Fin 1 → ℝ) ![![x], ![y]] 0 1) / 1 = _
    rw [hcost 0 1]
    show -((x - y) ^ 2) / 1 = -(10 ^ 6 : ℝ)
    rw [hxy]
    ring
  have hK10 : logKernel (1 : ℝ)
      (costMatrix (![![x], ![x], ![y]] : Fin 3 → Fin 1 → ℝ) ![![x], ![y]]) 1 0 = 0 := by
    show -(costMatrix (![![x], ![x], ![y]] : Fin 3 → Fin 1 → ℝ) ![![x], ![y]] 1 0) / 1 = 0
    rw [hcost 1 0]
    show -((x - x) ^ 2) / 1 = 0
    ring
  have hK11 : logKernel (1 : ℝ)
      (costMatrix (![![x], ![x], ![y]] : Fin 3 → Fin 1 → ℝ) ![![x], ![y]]) 1 1
        = -(10 ^ 6 : ℝ) := by
    show -(costMatrix (![![x], ![x], ![y]] : Fin 3 → Fin 1 → ℝ) ![![x], ![y]] 1 1) / 1 = _
    rw [hcost 1 1]
    show -((x - y) ^ 2) / 1 = -(10 ^ 6 : ℝ)
    rw [hxy]
    ring
  have hK20 : logKernel (1 : ℝ)
      (costMatrix (![![x], ![x], ![y]] : Fin 3 → Fin 1 → ℝ) ![![x], ![y]]) 2 0
        = -(10 ^ 6 : ℝ) := by
    show -(costMatrix (![![x], ![x], ![y]] : Fin 3 → Fin 1 → ℝ) ![![x], ![y]] 2 0) / 1 = _
    rw [hcost 2 0]
    show -((y - x) ^ 2) / 1 = -(10 ^ 6 : ℝ)
    rw [hyx]
    ring
  have hK21 : logKernel (1 : ℝ)
      (costMatrix (![![x], ![x], ![y]] : Fin 3 → Fin 1 → ℝ) ![![x], ![y]]) 2 1 = 0 := by
    show -(costMatrix (![![x], ![x], ![y]] : Fin 3 → Fin 1 → ℝ) ![![x], ![y]] 2 1) / 1 = 0
    rw [hcost 2 1]
    show -((y - y) ^ 2) / 1 = 0
    ring
  have hnw0 : normalizeWeights 3 (some (![0, 1, 1] : Fin 3 → ℝ)) 0 = 0 := by
    norm_num [normalizeWeights, Fin.sum_univ_three]
  have hnw1 : normalizeWeights 3 (some (![0, 1, 1] : Fin 3 → ℝ)) 1 = 1 / 2 := by
    norm_num [normalizeWeights, Fin.sum_univ_three]
  have hnw2 : normalizeWeights 3 (some (![0, 1, 1] : Fin 3 → ℝ)) 2 = 1 / 2 := by
    norm_num [normalizeWeights, Fin.sum_univ_three]
  have htw0 : normalizeWeights 2 (some (![0, 1] : Fin 2 → ℝ)) 0 = 0 := by
    norm_num [normalizeWeights, Fin.sum_univ_two]
  have htw1 : normalizeWeights 2 (some (![0, 1] : Fin 2 → ℝ)) 1 = 1 := by
    norm_num [normalizeWeights, Fin.sum_univ_two]
  have hfW : floorWeight (α := ℝ) = 1 / 10 ^ 256 := rfl
  have hfR : floorRow (α := ℝ) = 1 / 10 ^ 300 := rfl
  simp only [one_iter_entry_formula (n := 2) (m := 1)]
  simp only [Nat.reduceAdd]
  simp only [Fin.sum_univ_two, Fin.sum_univ_three]
  simp only [hK00, hK01, hK10, hK11, hK20, hK21, hfW, hfR, Real.exp_zero, one_mul,
    mul_one, hnw0, hnw1, hnw2, htw0, htw1, zero_add]
  rw [Real.exp_log (by norm_num : (0:ℝ) < 1 / 10 ^ 256)]
  rw [Real.exp_log (by norm_num : (0:ℝ) < 1 / 2 + 1 / 10 ^ 256)]
  rw [Real.exp_log (by norm_num : (0:ℝ) < 1 + 1 / 10 ^ 256)]
  rw [div_add_div_same]
  generalize hq : Real.exp (-(10 ^ 6 : ℝ)) = q
  have hq0 : 0 < q := by
    rw [← hq]
    exact Real.exp_pos _
  have hq1 : q ≤ 1 := by
    rw [← hq]
    exact Real.exp_le_one_iff.mpr (by norm_num)
  have hqs : q ≤ 1 / 10 ^ 100 := by
    rw [← hq]
    exact exp_neg_million_le
  exact ce_arith q hq0 hq1 hqs

/-- C1 counterexample: with non-empty point sets (`n = 3`, `m = 2`) and valid
parameters — source points `[0], [0], [1000]`, target points `[0], [1000]`,
nonnegative source weights `[0, 1, 1]`, target weights `[0, 1]`,
`epsilon = 1 > 0`, `min_iterations = 0 ≤ max_iterations = 1`,
`tolerance = 1e-8 > 0` — the solver returns normally, yet row 0 of the
returned transport matrix sums to at most `1e-10`: the zero-weighted far-away
source point's row mass vanishes far below the `1e-300` renormalization
floor, so the floor dominates the division and the row sum is nowhere near 1.
Hence "every row sums to 1 within 1e-6" is false. -/
theorem transport_row_sum_counterexample :
    exOk (sinkhorn_log_domain Real.exp Real.log
        (![![0], ![0], ![1000]] : Fin 3 → Fin 1 → ℝ)
        (![![0], ![1000]] : Fin 2 → Fin 1 → ℝ)
        (some ![0, 1, 1]) (some ![0, 1]) 1 0 1 (1 / 10 ^ 8)) = true ∧
    1 / 10 ^ 6 < |(∑ j, planOf (sinkhorn_log_domain Real.exp Real.log
        (![![0], ![0], ![1000]] : Fin 3 → Fin 1 → ℝ)
        (![![0], ![1000]] : Fin 2 → Fin 1 → ℝ)
        (some ![0, 1, 1]) (some ![0, 1]) 1 0 1 (1 / 10 ^ 8)) 0 j) - 1| := by
  obtain ⟨hok, hsum⟩ := ce_plan_sum_bound 0 1000 (by norm_num)
  refine ⟨hok, ?_⟩
  rw [Fin.sum_univ_two]
  have h00 : 0 ≤ planOf (sinkhorn_log_domain Real.exp Real.log
      (![![0], ![0], ![1000]] : Fin 3 → Fin 1 → ℝ)
      (![![0], ![1000]] : Fin 2 → Fin 1 → ℝ)
      (some ![0, 1, 1]) (some ![0, 1]) 1 0 1 (1 / 10 ^ 8)) 0 0 :=
    planEntry_nonneg ![![0], ![0], ![1000]] ![![0], ![1000]] (some ![0, 1, 1])
      (some ![0, 1]) 1 0 0 (1 / 10 ^ 8) 0 0
  have h01 : 0 ≤ planOf (sinkhorn_log_domain Real.exp Real.log
      (![![0], ![0], ![1000]] : Fin 3 → Fin 1 → ℝ)
      (![![0], ![1000]] : Fin 2 → Fin 1 → ℝ)
      (some ![0, 1, 1]) (some ![0, 1]) 1 0 1 (1 / 10 ^ 8)) 0 1 :=
    planEntry_nonneg ![![0], ![0], ![1000]] ![![0], ![1000]] (some ![0, 1, 1])
      (some ![0, 1]) 1 0 0 (1 / 10 ^ 8) 0 1
  have hle : planOf (sinkhorn_log_domain Real.exp Real.log
      (![![0], ![0], ![1000]] : Fin 3 → Fin 1 → ℝ)
      (![![0], ![1000]] : Fin 2 → Fin 1 → ℝ)
      (some ![0, 1, 1]) (some ![0, 1]) 1 0 1 (1 / 10 ^ 8)) 0 0
      + planOf (sinkhorn_log_domain Real.exp Real.log
      (![![0], ![0], ![1000]] : Fin 3 → Fin 1 → ℝ)
      (![![0], ![1000]] : Fin 2 → Fin 1 → ℝ)
      (some ![0, 1, 1]) (some ![0, 1]) 1 0 1 (1 / 10 ^ 8)) 0 1 - 1 ≤ 0 := by
    have : (1 : ℝ) / 10 ^ 10 ≤ 1 := by norm_num
    linarith
  rw [abs_of_nonpos hle]
  have : (1 : ℝ) / 10 ^ 6 < 1 - 1 / 10 ^ 10 := by norm_num
  linarith

/-- C7 counterexample: at the same configuration shifted so that every target
coordinate is at least 10 (targets `[10]` and `[1010]`), the mapped position
of source point 0 has coordinate at most `1010 * 1e-10 < 10`, i.e. strictly
below the minimum of the target coordinates on that axis — outside the convex
hull of the target points.  The hull-containment claim therefore fails: rows
of the returned plan do not sum to 1. -/
theorem hull_containment_counterexample :
    exOk (sinkhorn_log_domain Real.exp Real.log
        (![![10], ![10], ![1010]] : Fin 3 → Fin 1 → ℝ)
        (![![10], ![1010]] : Fin 2 → Fin 1 → ℝ)
        (some ![0, 1, 1]) (some ![0, 1]) 1 0 1 (1 / 10 ^ 8)) = true ∧
    (![![10], ![1010]] : Fin 2 → Fin 1 → ℝ) 0 0 = 10 ∧
    (![![10], ![1010]] : Fin 2 → Fin 1 → ℝ) 1 0 = 1010 ∧
    applyTransportMatrix (planOf (sinkhorn_log_domain Real.exp Real.log
        (![![10], ![10], ![1010]] : Fin 3 → Fin 1 → ℝ)
        (![![10], ![1010]] : Fin 2 → Fin 1 → ℝ)
        (some ![0, 1, 1]) (some ![0, 1]) 1 0 1 (1 / 10 ^ 8)))
      ![![10], ![1010]] 0 0 < 10 := by
  obtain ⟨hok, hsum⟩ := ce_plan_sum_bound 10 1010 (by norm_num)
  refine ⟨hok, rfl, rfl, ?_⟩
  have h00 : 0 ≤ planOf (sinkhorn_log_domain Real.exp Real.log
      (![![10], ![10], ![1010]] : Fin 3 → Fin 1 → ℝ)
      (![![10], ![1010]] : Fin 2 → Fin 1 → ℝ)
      (some ![0, 1, 1]) (some ![0, 1]) 1 0 1 (1 / 10 ^ 8)) 0 0 :=
    planEntry_nonneg ![![10], ![10], ![1010]] ![![10], ![1010]] (some ![0, 1, 1])
      (some ![0, 1]) 1 0 0 (1 / 10 ^ 8) 0 0
  have h01 : 0 ≤ planOf (sinkhorn_log_domain Real.exp Real.log
      (![![10], ![10], ![1010]] : Fin 3 → Fin 1 → ℝ)
      (![![10], ![1010]] : Fin 2 → Fin 1 → ℝ)
      (some ![0, 1, 1]) (some ![0, 1]) 1 0 1 (1 / 10 ^ 8)) 0 1 :=
    planEntry_nonneg ![![10], ![10], ![1010]] ![![10], ![1010]] (some ![0, 1, 1])
      (some ![0, 1]) 1 0 0 (1 / 10 ^ 8) 0 1
  show (∑ j, planOf (sinkhorn_log_domain Real.exp Real.log
      (![![10], ![10], ![1010]] : Fin 3 → Fin 1 → ℝ)
      (![![10], ![1010]] : Fin 2 → Fin 1 → ℝ)
      (some ![0, 1, 1]) (some ![0, 1]) 1 0 1 (1 / 10 ^ 8)) 0 j
        * (![![10], ![1010]] : Fin 2 → Fin 1 → ℝ) j 0) < 10
  rw [Fin.sum_univ_two]
  simp only [show (![![10], ![1010]] : Fin 2 → Fin 1 → ℝ) 0 0 = 10 from rfl,
    show (![![10], ![1010]] : Fin 2 → Fin 1 → ℝ) 1 0 = 1010 from rfl]
  nlinarith [hsum, h00, h01]

end SinkhornOT
